import Mathlib

/-!
Verification of the core pipeline of `src/app.py` (AR/VR Surgery Research
Extractor).  Python strings are embedded as `List Char`; the relevant Python
string primitives (`split('\n')`, `strip()`, `startswith("-")`, substring
containment `in`) are embedded as executable Lean functions, and the pure
functions `parse_response`, `update_sheet` (row construction), the prompt
construction of `extract_info_with_gemini`, and the control flow of `main`
are translated from the source.
-/

/-- Whitespace characters removed by Python `str.strip()` (ASCII range). -/
def isPySpace (c : Char) : Bool :=
  c = ' ' || c = '\t' || c = '\n' || c = '\r' || c = '\x0b' || c = '\x0c'

/-- Python `str.strip()`: remove leading and trailing whitespace. -/
def pyStrip (l : List Char) : List Char :=
  ((l.dropWhile isPySpace).reverse.dropWhile isPySpace).reverse

/-- Python `str.split('\n')`: split on every newline, keeping empty pieces;
the empty string yields one empty piece. -/
def splitOnNl : List Char → List (List Char)
  | [] => [[]]
  | c :: rest =>
    if c = '\n' then [] :: splitOnNl rest
    else
      match splitOnNl rest with
      | [] => [[c]]
      | l :: ls => (c :: l) :: ls

/-- Join lines with a single newline between them (inverse of `splitOnNl`
on newline-free lines). -/
def joinNl : List (List Char) → List Char
  | [] => []
  | [l] => l
  | l :: l2 :: rest => l ++ '\n' :: joinNl (l2 :: rest)

/-- Does the second list start with the first one? -/
def startsWithSeq : List Char → List Char → Bool
  | [], _ => true
  | _ :: _, [] => false
  | p :: ps, c :: cs => p == c && startsWithSeq ps cs

/-- Python substring containment `pat in s` (for non-empty `pat`). -/
def containsSeq (pat : List Char) : List Char → Bool
  | [] => startsWithSeq pat []
  | c :: t => startsWithSeq pat (c :: t) || containsSeq pat t

/-- Header phrase recognised for the `solutions` field (app.py line 120). -/
def hdrSolutions : List Char := "Existing AR/VR Solutions".data

/-- Header phrase recognised for the `to_solve` field (app.py line 122). -/
def hdrToSolve : List Char := "Problems to be Solved".data

/-- Header phrase recognised for the `pps` field (app.py line 124). -/
def hdrPps : List Char := "Proposed Problem Statement".data

/-- The keys of the `info` dictionary in `parse_response`. -/
inductive Key where
  | solutions
  | to_solve
  | pps
deriving DecidableEq

/-- The `info` dictionary built by `parse_response`:
three string fields `solutions`, `to_solve`, `pps`. -/
structure Info where
  solutions : List Char
  to_solve : List Char
  pps : List Char
deriving DecidableEq

/-- The initial dictionary of `parse_response`: all three fields empty. -/
def emptyInfo : Info := ⟨[], [], []⟩

/-- Dictionary lookup `info[k]`. -/
def getField : Info → Key → List Char
  | i, Key.solutions => i.solutions
  | i, Key.to_solve => i.to_solve
  | i, Key.pps => i.pps

/-- Dictionary update `info[k] = v`. -/
def setField : Info → Key → List Char → Info
  | i, Key.solutions, v => { i with solutions := v }
  | i, Key.to_solve, v => { i with to_solve := v }
  | i, Key.pps, v => { i with pps := v }

/-- Python `line.strip().startswith("-")`. -/
def startsDash (l : List Char) : Bool :=
  match pyStrip l with
  | [] => false
  | c :: _ => c == '-'

/-- One iteration of the `for line in response_text.split('\n')` loop of
`parse_response` (app.py lines 119-130): the state is the pair
`(current_key, info)`. -/
def step : Option Key × Info → List Char → Option Key × Info
  | (ck, info), line =>
    if containsSeq hdrSolutions line then (some Key.solutions, info)
    else if containsSeq hdrToSolve line then (some Key.to_solve, info)
    else if containsSeq hdrPps line then (some Key.pps, info)
    else
      match ck with
      | none => (none, info)
      | some k =>
        if k = Key.pps then
          (some k, { info with pps := info.pps ++ pyStrip line ++ [' '] })
        else if startsDash line then
          (some k, setField info k (getField info k ++ pyStrip line ++ ['\n']))
        else (some k, info)

/-- The fold of `parse_response` over an explicit list of lines. -/
def parseFold (ls : List (List Char)) : Option Key × Info :=
  ls.foldl step (none, emptyInfo)

/-- The `info` dictionary after processing a list of lines. -/
def parse_lines (ls : List (List Char)) : Info :=
  (parseFold ls).2

/-- The `current_key` value after processing a list of lines. -/
def currentKey (ls : List (List Char)) : Option Key :=
  (parseFold ls).1

/-- `parse_response` from app.py lines 114-132. -/
def parse_response (s : List Char) : Info :=
  parse_lines (splitOnNl s)

/-! ### Lemmas about `splitOnNl` and `joinNl` -/

theorem splitOnNl_nonl (l : List Char) (h : '\n' ∉ l) : splitOnNl l = [l] := by
  induction l with
  | nil => rfl
  | cons c t ih =>
    have hc : ¬(c = '\n') := fun hcn => h (hcn ▸ List.mem_cons_self c t)
    have ht : '\n' ∉ t := fun hm => h (List.mem_cons_of_mem c hm)
    simp [splitOnNl, hc, ih ht]

theorem splitOnNl_append (l s : List Char) (h : '\n' ∉ l) :
    splitOnNl (l ++ '\n' :: s) = l :: splitOnNl s := by
  induction l with
  | nil => simp [splitOnNl]
  | cons c t ih =>
    have hc : ¬(c = '\n') := fun hcn => h (hcn ▸ List.mem_cons_self c t)
    have ht : '\n' ∉ t := fun hm => h (List.mem_cons_of_mem c hm)
    simp only [List.cons_append, splitOnNl, if_neg hc, List.append_eq, ih ht]

theorem splitOnNl_joinNl : ∀ ls : List (List Char), ls ≠ [] →
    (∀ l ∈ ls, '\n' ∉ l) → splitOnNl (joinNl ls) = ls := by
  intro ls
  induction ls with
  | nil => intro h; exact absurd rfl h
  | cons l rest ih =>
    intro _ hnl
    match rest with
    | [] => exact splitOnNl_nonl l (hnl l (List.mem_cons_self _ _))
    | l2 :: rest2 =>
      have h1 : '\n' ∉ l := hnl l (List.mem_cons_self _ _)
      have h2 : ∀ x ∈ l2 :: rest2, '\n' ∉ x := fun x hx => hnl x (List.mem_cons_of_mem _ hx)
      show splitOnNl (l ++ '\n' :: joinNl (l2 :: rest2)) = l :: l2 :: rest2
      rw [splitOnNl_append l _ h1, ih (by simp) h2]

theorem mem_dropWhile {a : Char} {p : Char → Bool} :
    ∀ l : List Char, a ∈ List.dropWhile p l → a ∈ l := by
  intro l
  induction l with
  | nil => intro h; exact absurd h (List.not_mem_nil a)
  | cons c t ih =>
    intro h
    by_cases hc : p c
    · rw [List.dropWhile_cons_of_pos hc] at h
      exact List.mem_cons_of_mem c (ih h)
    · rw [List.dropWhile_cons_of_neg hc] at h
      exact h

theorem mem_pyStrip {a : Char} {l : List Char} (h : a ∈ pyStrip l) : a ∈ l := by
  unfold pyStrip at h
  rw [List.mem_reverse] at h
  have h2 := mem_dropWhile _ h
  rw [List.mem_reverse] at h2
  exact mem_dropWhile _ h2

theorem splitOnNl_no_nl : ∀ (s : List Char), ∀ l ∈ splitOnNl s, '\n' ∉ l := by
  intro s
  induction s with
  | nil =>
    intro l hl
    simp [splitOnNl] at hl
    simp [hl]
  | cons c t ih =>
    intro l hl
    by_cases hc : c = '\n'
    · rw [show splitOnNl (c :: t) = [] :: splitOnNl t by simp [splitOnNl, hc]] at hl
      rcases List.mem_cons.mp hl with h | h
      · simp [h]
      · exact ih l h
    · rw [show splitOnNl (c :: t) = (match splitOnNl t with
            | [] => [[c]]
            | x :: xs => (c :: x) :: xs) by simp [splitOnNl, hc]] at hl
      rcases hsp : splitOnNl t with _ | ⟨x, xs⟩
      · rw [hsp] at hl
        simp at hl
        subst hl
        intro hm
        rcases List.mem_singleton.mp hm with h
        exact hc h.symm
      · rw [hsp] at hl
        rcases List.mem_cons.mp hl with h | h
        · subst h
          intro hm
          rcases List.mem_cons.mp hm with h | h
          · exact hc h.symm
          · exact ih x (hsp ▸ List.mem_cons_self _ _) h
        · exact ih l (hsp ▸ List.mem_cons_of_mem _ h)

/-! ### Step and fold lemmas for `parse_response` -/

/-- A line containing none of the three header phrases. -/
def NonHeader (l : List Char) : Prop :=
  containsSeq hdrSolutions l = false ∧ containsSeq hdrToSolve l = false ∧
    containsSeq hdrPps l = false

instance (l : List Char) : Decidable (NonHeader l) := by
  unfold NonHeader; infer_instance

theorem getField_setField (i : Info) (k : Key) (v : List Char) :
    getField (setField i k v) k = v := by
  cases k <;> rfl

theorem setField_setField (i : Info) (k : Key) (v w : List Char) :
    setField (setField i k v) k w = setField i k w := by
  cases k <;> rfl

theorem setField_getField_self (i : Info) (k : Key) :
    setField i k (getField i k) = i := by
  cases k <;> rfl

theorem getField_setField_ne (i : Info) (k k' : Key) (v : List Char) (h : k ≠ k') :
    getField (setField i k v) k' = getField i k' := by
  cases k <;> cases k' <;> first | rfl | exact absurd rfl h

/-- What one non-header line contributes to the active field. -/
def contrib (k : Key) (l : List Char) : List Char :=
  if k = Key.pps then pyStrip l ++ [' ']
  else if startsDash l then pyStrip l ++ ['\n']
  else []

/-- Total contribution of a list of non-header lines to the active field. -/
def accum (k : Key) : List (List Char) → List Char
  | [] => []
  | l :: rest => contrib k l ++ accum k rest

theorem step_hdr1 (st : Option Key × Info) (l : List Char)
    (h : containsSeq hdrSolutions l = true) :
    step st l = (some Key.solutions, st.2) := by
  obtain ⟨ck, info⟩ := st
  simp [step, h]

theorem step_hdr2 (st : Option Key × Info) (l : List Char)
    (h1 : containsSeq hdrSolutions l = false) (h2 : containsSeq hdrToSolve l = true) :
    step st l = (some Key.to_solve, st.2) := by
  obtain ⟨ck, info⟩ := st
  simp [step, h1, h2]

theorem step_hdr3 (st : Option Key × Info) (l : List Char)
    (h1 : containsSeq hdrSolutions l = false) (h2 : containsSeq hdrToSolve l = false)
    (h3 : containsSeq hdrPps l = true) :
    step st l = (some Key.pps, st.2) := by
  obtain ⟨ck, info⟩ := st
  simp [step, h1, h2, h3]

theorem step_nonheader_none (info : Info) (l : List Char) (h : NonHeader l) :
    step (none, info) l = (none, info) := by
  obtain ⟨h1, h2, h3⟩ := h
  simp [step, h1, h2, h3]

theorem step_nonheader_some (info : Info) (k : Key) (l : List Char) (h : NonHeader l) :
    step (some k, info) l = (some k, setField info k (getField info k ++ contrib k l)) := by
  obtain ⟨h1, h2, h3⟩ := h
  by_cases hk : k = Key.pps
  · subst hk
    simp [step, h1, h2, h3, contrib, setField, getField]
  · by_cases hd : startsDash l
    · simp [step, h1, h2, h3, hk, hd, contrib]
    · simp [step, h1, h2, h3, hk, hd, contrib, setField_getField_self]

theorem foldl_step_nonheader_none (info : Info) :
    ∀ ls : List (List Char), (∀ l ∈ ls, NonHeader l) →
      ls.foldl step (none, info) = (none, info) := by
  intro ls
  induction ls with
  | nil => intro _; rfl
  | cons l rest ih =>
    intro h
    rw [List.foldl_cons, step_nonheader_none info l (h l (List.mem_cons_self _ _))]
    exact ih fun x hx => h x (List.mem_cons_of_mem _ hx)

theorem foldl_step_accum (k : Key) :
    ∀ (ls : List (List Char)) (info : Info), (∀ l ∈ ls, NonHeader l) →
      ls.foldl step (some k, info) =
        (some k, setField info k (getField info k ++ accum k ls)) := by
  intro ls
  induction ls with
  | nil =>
    intro info _
    simp [accum, setField_getField_self]
  | cons l rest ih =>
    intro info h
    rw [List.foldl_cons, step_nonheader_some info k l (h l (List.mem_cons_self _ _)),
      ih _ fun x hx => h x (List.mem_cons_of_mem _ hx),
      getField_setField, setField_setField, accum, List.append_assoc]

/-- The `info` part of one step is either unchanged or extends one field. -/
theorem step_info_cases (st : Option Key × Info) (l : List Char) :
    (step st l).2 = st.2 ∨
      ∃ k u, (step st l).2 = setField st.2 k (getField st.2 k ++ u) := by
  obtain ⟨ck, info⟩ := st
  show (step (ck, info) l).2 = info ∨ _
  unfold step
  by_cases h1 : containsSeq hdrSolutions l
  · left; simp [h1]
  · by_cases h2 : containsSeq hdrToSolve l
    · left; simp [h1, h2]
    · by_cases h3 : containsSeq hdrPps l
      · left; simp [h1, h2, h3]
      · simp only [h1, h2, h3, Bool.false_eq_true, if_false]
        match ck with
        | none => left; rfl
        | some k =>
          by_cases hk : k = Key.pps
          · right
            refine ⟨Key.pps, pyStrip l ++ [' '], ?_⟩
            simp [hk, setField, getField]
          · by_cases hd : startsDash l
            · right
              refine ⟨k, pyStrip l ++ ['\n'], ?_⟩
              simp [hk, hd]
            · left; simp [hk, hd]

theorem getField_step_grow (st : Option Key × Info) (l : List Char) (k : Key) :
    ∃ t, getField (step st l).2 k = getField st.2 k ++ t := by
  rcases step_info_cases st l with h | ⟨k', u, h⟩
  · exact ⟨[], by rw [h, List.append_nil]⟩
  · by_cases hk : k' = k
    · subst hk
      exact ⟨u, by rw [h, getField_setField]⟩
    · exact ⟨[], by rw [h, getField_setField_ne _ _ _ _ hk, List.append_nil]⟩

theorem getField_foldl_grow (k : Key) :
    ∀ (ls : List (List Char)) (st : Option Key × Info),
      ∃ t, getField (ls.foldl step st).2 k = getField st.2 k ++ t := by
  intro ls
  induction ls with
  | nil => intro st; exact ⟨[], by rw [List.foldl_nil, List.append_nil]⟩
  | cons l rest ih =>
    intro st
    obtain ⟨t1, h1⟩ := getField_step_grow st l k
    obtain ⟨t2, h2⟩ := ih (step st l)
    exact ⟨t1 ++ t2, by rw [List.foldl_cons, h2, h1, List.append_assoc]⟩

/-! ### Claim theorems -/

/-- C1: for an input made of the three header lines in order, each followed by
bullet lines (newline-free, containing no header phrase, stripped form starting
with a dash), `parse_response` assigns exactly the bullet lines of each section
to the field of the most recently seen header — each field equals precisely the
accumulated contributions of its own bullet lines, so no header line itself
appears in any field. -/
theorem parse_response_sections
    (h1 h2 h3 : List Char) (b1 b2 b3 : List (List Char))
    (hnl : ∀ l ∈ h1 :: (b1 ++ h2 :: (b2 ++ h3 :: b3)), '\n' ∉ l)
    (hh1 : containsSeq hdrSolutions h1 = true)
    (hh2 : containsSeq hdrToSolve h2 = true)
    (hh2a : containsSeq hdrSolutions h2 = false)
    (hh3 : containsSeq hdrPps h3 = true)
    (hh3a : containsSeq hdrSolutions h3 = false)
    (hh3b : containsSeq hdrToSolve h3 = false)
    (hb1 : ∀ l ∈ b1, NonHeader l ∧ startsDash l = true)
    (hb2 : ∀ l ∈ b2, NonHeader l ∧ startsDash l = true)
    (hb3 : ∀ l ∈ b3, NonHeader l ∧ startsDash l = true) :
    parse_response (joinNl (h1 :: (b1 ++ h2 :: (b2 ++ h3 :: b3)))) =
      { solutions := accum Key.solutions b1,
        to_solve := accum Key.to_solve b2,
        pps := accum Key.pps b3 } := by
  have hne : h1 :: (b1 ++ h2 :: (b2 ++ h3 :: b3)) ≠ [] := by simp
  rw [parse_response, splitOnNl_joinNl _ hne hnl]
  unfold parse_lines parseFold
  rw [List.foldl_cons, step_hdr1 _ _ hh1, List.foldl_append,
    foldl_step_accum Key.solutions b1 _ (fun l hl => (hb1 l hl).1),
    List.foldl_cons, step_hdr2 _ _ hh2a hh2, List.foldl_append,
    foldl_step_accum Key.to_solve b2 _ (fun l hl => (hb2 l hl).1),
    List.foldl_cons, step_hdr3 _ _ hh3a hh3b hh3,
    foldl_step_accum Key.pps b3 _ (fun l hl => (hb3 l hl).1)]
  simp [emptyInfo, setField, getField]

/-- Witness for C1: a concrete well-formed three-section input. -/
theorem parse_response_sections_witness :
    parse_response (joinNl ["Existing AR/VR Solutions:".data, "- sol one".data,
        "Problems to be Solved:".data, "- gap one".data,
        "Proposed Problem Statement:".data, "- statement".data]) =
      { solutions := accum Key.solutions ["- sol one".data],
        to_solve := accum Key.to_solve ["- gap one".data],
        pps := accum Key.pps ["- statement".data] } :=
  parse_response_sections "Existing AR/VR Solutions:".data
    "Problems to be Solved:".data "Proposed Problem Statement:".data
    ["- sol one".data] ["- gap one".data] ["- statement".data]
    (by decide) (by decide) (by decide) (by decide) (by decide) (by decide)
    (by decide) (by decide) (by decide) (by decide)

/-- C4: lines occurring before the first header line contribute nothing to any
field (dropping them leaves the parse unchanged), and an input with no header
phrase at all parses to three empty fields; `parse_response` is total, so no
error is raised. -/
theorem parse_response_no_header :
    (∀ pre rest : List (List Char), rest ≠ [] →
      (∀ l ∈ pre ++ rest, '\n' ∉ l) → (∀ l ∈ pre, NonHeader l) →
      parse_response (joinNl (pre ++ rest)) = parse_response (joinNl rest))
    ∧ (∀ s : List Char, (∀ l ∈ splitOnNl s, NonHeader l) →
      parse_response s = emptyInfo) := by
  constructor
  · intro pre rest hrest hnl hnh
    have hne : pre ++ rest ≠ [] := fun hc => hrest (List.append_eq_nil.mp hc).2
    rw [parse_response, splitOnNl_joinNl _ hne hnl, parse_response,
      splitOnNl_joinNl rest hrest (fun l hl => hnl l (List.mem_append_right _ hl))]
    unfold parse_lines parseFold
    rw [List.foldl_append, foldl_step_nonheader_none emptyInfo pre hnh]
  · intro s h
    unfold parse_response parse_lines parseFold
    rw [foldl_step_nonheader_none emptyInfo _ h]

/-- Witness for C4: a header-free input parses to the empty record. -/
theorem parse_response_no_header_witness :
    parse_response ("hello\n- world").data = emptyInfo :=
  parse_response_no_header.2 ("hello\n- world").data (by decide)

/-- C5: inside an active `solutions` or `to_solve` section, a non-header line
whose stripped form does not start with a dash contributes nothing (the parse
equals the parse with that line deleted), while a line whose stripped form does
start with a dash is present in the field (its stripped form plus newline is a
contiguous part of the field). -/
theorem parse_lines_bullet_gate
    (pre post : List (List Char)) (line : List Char) (k : Key)
    (hk : currentKey pre = some k)
    (hks : k = Key.solutions ∨ k = Key.to_solve)
    (hnh : NonHeader line) :
    (startsDash line = false →
      parse_lines (pre ++ line :: post) = parse_lines (pre ++ post))
    ∧ (startsDash line = true →
      pyStrip line ++ ['\n'] <:+: getField (parse_lines (pre ++ line :: post)) k) := by
  have hkp : k ≠ Key.pps := by
    rcases hks with h | h <;> subst h <;> exact fun hc => Key.noConfusion hc
  rcases hpf : parseFold pre with ⟨ck, info⟩
  have hck : ck = some k := by
    have h2 := hk
    unfold currentKey at h2
    rw [hpf] at h2
    exact h2
  subst hck
  have hpre : List.foldl step (none, emptyInfo) pre = (some k, info) := by
    have h2 := hpf
    unfold parseFold at h2
    exact h2
  constructor
  · intro hd
    have hc : contrib k line = [] := by
      unfold contrib
      rw [if_neg hkp, if_neg (by simp [hd])]
    unfold parse_lines parseFold
    rw [List.foldl_append, List.foldl_append, hpre, List.foldl_cons,
      step_nonheader_some info k line hnh, hc, List.append_nil,
      setField_getField_self]
  · intro hd
    have hc : contrib k line = pyStrip line ++ ['\n'] := by
      unfold contrib
      rw [if_neg hkp, if_pos hd]
    unfold parse_lines parseFold
    rw [List.foldl_append, hpre, List.foldl_cons,
      step_nonheader_some info k line hnh, hc]
    obtain ⟨t, ht⟩ := getField_foldl_grow k post
      (some k, setField info k (getField info k ++ (pyStrip line ++ ['\n'])))
    rw [ht, getField_setField]
    exact ⟨getField info k, t, by simp [List.append_assoc]⟩

/-- Witness for C5: a non-bulleted line inside a `solutions` section is
silently dropped. -/
theorem parse_lines_bullet_gate_witness :
    parse_lines (["Existing AR/VR Solutions".data] ++ "plain text".data :: []) =
      parse_lines (["Existing AR/VR Solutions".data] ++ []) :=
  (parse_lines_bullet_gate ["Existing AR/VR Solutions".data] [] "plain text".data
    Key.solutions (by decide) (Or.inl rfl) (by decide)).1 (by decide)

/-- C6: on the input consisting of the header line
`Proposed Problem Statement` followed by the lines `Reduce latency.` and
`Improve haptics.`, the `pps` field is the two lines joined by a single space
with a trailing space. -/
theorem parse_response_pps_join :
    (parse_response ("Proposed Problem Statement\nReduce latency.\nImprove haptics.").data).pps
      = ("Reduce latency. Improve haptics. ").data := by decide

/-- Counterexample for C7: the bullet line `  - foo ` is NOT kept verbatim in
the `solutions` field — the field holds only its stripped form `- foo` plus a
newline, and the verbatim line is not even a contiguous part of the field. -/
theorem parse_response_verbatim_cex :
    parse_response ("Existing AR/VR Solutions\n  - foo ").data
        = ⟨("- foo\n").data, [], []⟩
      ∧ ¬(("  - foo ").data <:+: ("- foo\n").data) := by decide

/-- C7 (amended): inside an active section, a non-header line is kept in
STRIPPED form, not verbatim: under `pps` every line contributes its stripped
form plus a trailing space, and under `solutions`/`to_solve` a dash-starting
line contributes its stripped form plus a newline; the contribution is a
contiguous part of the final field. -/
theorem parse_lines_stripped_kept
    (pre post : List (List Char)) (line : List Char) (k : Key)
    (hk : currentKey pre = some k) (hnh : NonHeader line) :
    (k = Key.pps →
      pyStrip line ++ [' '] <:+: (parse_lines (pre ++ line :: post)).pps)
    ∧ ((k = Key.solutions ∨ k = Key.to_solve) → startsDash line = true →
      pyStrip line ++ ['\n'] <:+: getField (parse_lines (pre ++ line :: post)) k) := by
  rcases hpf : parseFold pre with ⟨ck, info⟩
  have hck : ck = some k := by
    have h2 := hk
    unfold currentKey at h2
    rw [hpf] at h2
    exact h2
  subst hck
  have hpre : List.foldl step (none, emptyInfo) pre = (some k, info) := by
    have h2 := hpf
    unfold parseFold at h2
    exact h2
  constructor
  · intro hkp
    subst hkp
    have hc : contrib Key.pps line = pyStrip line ++ [' '] := by
      unfold contrib
      rw [if_pos rfl]
    show pyStrip line ++ [' '] <:+:
      getField (parse_lines (pre ++ line :: post)) Key.pps
    unfold parse_lines parseFold
    rw [List.foldl_append, hpre, List.foldl_cons,
      step_nonheader_some info Key.pps line hnh, hc]
    obtain ⟨t, ht⟩ := getField_foldl_grow Key.pps post
      (some Key.pps, setField info Key.pps (getField info Key.pps ++ (pyStrip line ++ [' '])))
    rw [ht, getField_setField]
    exact ⟨getField info Key.pps, t, by simp [List.append_assoc]⟩
  · intro hks hd
    have hkp : k ≠ Key.pps := by
      rcases hks with h | h <;> subst h <;> exact fun hc => Key.noConfusion hc
    have hc : contrib k line = pyStrip line ++ ['\n'] := by
      unfold contrib
      rw [if_neg hkp, if_pos hd]
    unfold parse_lines parseFold
    rw [List.foldl_append, hpre, List.foldl_cons,
      step_nonheader_some info k line hnh, hc]
    obtain ⟨t, ht⟩ := getField_foldl_grow k post
      (some k, setField info k (getField info k ++ (pyStrip line ++ ['\n'])))
    rw [ht, getField_setField]
    exact ⟨getField info k, t, by simp [List.append_assoc]⟩

/-- Witness for C7 (amended): a line under `pps` contributes its stripped form
plus a trailing space. -/
theorem parse_lines_stripped_kept_witness :
    pyStrip ("x").data ++ [' '] <:+:
      (parse_lines (["Proposed Problem Statement".data] ++ ("x").data :: [])).pps :=
  (parse_lines_stripped_kept ["Proposed Problem Statement".data] [] ("x").data
    Key.pps (by decide) (by decide)).1 rfl

/-! ### Field-shape invariant (C10) -/

theorem getLast?_append_single (l : List Char) (a : Char) :
    (l ++ [a]).getLast? = some a := by
  rw [List.getLast?_append_cons]
  rfl

/-- Shape invariant of the `info` dictionary maintained by the parse loop. -/
def ShapeInv (i : Info) : Prop :=
  '\n' ∉ i.pps ∧ (i.pps ≠ [] → i.pps.getLast? = some ' ') ∧
    (i.solutions = [] ∨ i.solutions.getLast? = some '\n') ∧
    (i.to_solve = [] ∨ i.to_solve.getLast? = some '\n')

theorem shape_step (st : Option Key × Info) (l : List Char)
    (hl : '\n' ∉ l) (h : ShapeInv st.2) : ShapeInv (step st l).2 := by
  obtain ⟨ck, info⟩ := st
  show ShapeInv (step (ck, info) l).2
  unfold step
  by_cases h1 : containsSeq hdrSolutions l
  · simpa [h1] using h
  · by_cases h2 : containsSeq hdrToSolve l
    · simpa [h1, h2] using h
    · by_cases h3 : containsSeq hdrPps l
      · simpa [h1, h2, h3] using h
      · simp only [h1, h2, h3, Bool.false_eq_true, if_false]
        match ck with
        | none => exact h
        | some k =>
          obtain ⟨hp1, hp2, hp3, hp4⟩ := h
          by_cases hk : k = Key.pps
          · simp only [hk, if_pos rfl]
            refine ⟨?_, ?_, hp3, hp4⟩
            · intro hm
              rcases List.mem_append.mp hm with hm | hm
              · rcases List.mem_append.mp hm with hm | hm
                · exact hp1 hm
                · exact hl (mem_pyStrip hm)
              · exact absurd (List.mem_singleton.mp hm) (by decide)
            · intro _
              rw [show info.pps ++ pyStrip l ++ [' ']
                  = (info.pps ++ pyStrip l) ++ [' '] by rw [List.append_assoc]]
              exact getLast?_append_single _ _
          · by_cases hd : startsDash l
            · simp only [hk, hd, if_neg hk, if_pos hd]
              rcases k with _ | _ | _
              · refine ⟨hp1, hp2, Or.inr ?_, hp4⟩
                show (info.solutions ++ pyStrip l ++ ['\n']).getLast? = some '\n'
                rw [show info.solutions ++ pyStrip l ++ ['\n']
                    = (info.solutions ++ pyStrip l) ++ ['\n'] by rw [List.append_assoc]]
                exact getLast?_append_single _ _
              · refine ⟨hp1, hp2, hp3, Or.inr ?_⟩
                show (info.to_solve ++ pyStrip l ++ ['\n']).getLast? = some '\n'
                rw [show info.to_solve ++ pyStrip l ++ ['\n']
                    = (info.to_solve ++ pyStrip l) ++ ['\n'] by rw [List.append_assoc]]
                exact getLast?_append_single _ _
              · exact absurd rfl hk
            · simp only [hk, hd, if_neg hk, if_neg (by simp [hd] : ¬(startsDash l = true))]
              exact ⟨hp1, hp2, hp3, hp4⟩

theorem shape_fold :
    ∀ (ls : List (List Char)) (st : Option Key × Info),
      (∀ l ∈ ls, '\n' ∉ l) → ShapeInv st.2 → ShapeInv ((ls.foldl step st)).2 := by
  intro ls
  induction ls with
  | nil => intro st _ h; exact h
  | cons l rest ih =>
    intro st hnl h
    rw [List.foldl_cons]
    exact ih (step st l) (fun x hx => hnl x (List.mem_cons_of_mem _ hx))
      (shape_step st l (hnl l (List.mem_cons_self _ _)) h)

/-- Counterexample for C10: after the `Proposed Problem Statement` header, two
empty lines each contribute a space, so the `pps` field ends with TWO spaces,
not a single one. -/
theorem parse_response_pps_double_space :
    (parse_response ("Proposed Problem Statement\n\n").data).pps = [' ', ' '] := by
  decide

/-- C10 (amended): for every input string, the `pps` field contains no newline
and, when non-empty, its last character is a space (possibly preceded by more
spaces); the `solutions` and `to_solve` fields are each empty or end with a
newline. -/
theorem parse_response_shape (s : List Char) :
    '\n' ∉ (parse_response s).pps
    ∧ ((parse_response s).pps ≠ [] → (parse_response s).pps.getLast? = some ' ')
    ∧ ((parse_response s).solutions = []
        ∨ (parse_response s).solutions.getLast? = some '\n')
    ∧ ((parse_response s).to_solve = []
        ∨ (parse_response s).to_solve.getLast? = some '\n') := by
  have h := shape_fold (splitOnNl s) (none, emptyInfo) (splitOnNl_no_nl s)
    ⟨by simp [emptyInfo], by simp [emptyInfo], Or.inl rfl, Or.inl rfl⟩
  exact h

/-- Witness for C10 (amended): a non-empty `pps` field ends with a space. -/
theorem parse_response_shape_witness :
    (parse_response ("Proposed Problem Statement\nx").data).pps.getLast? = some ' ' :=
  (parse_response_shape ("Proposed Problem Statement\nx").data).2.1 (by decide)

/-! ### `update_sheet` (app.py lines 148-161) -/

/-- The six integer fields of `datetime.now()` used by
`strftime("%Y-%m-%d %H:%M:%S")`. -/
structure DateTime where
  year : Nat
  month : Nat
  day : Nat
  hour : Nat
  minute : Nat
  second : Nat
deriving DecidableEq

/-- The decimal digit character for `n % 10`. -/
def natDigit (n : Nat) : Char := Char.ofNat (48 + n % 10)

/-- Two-digit zero-padded rendering (for in-range `datetime` fields). -/
def pad2 (n : Nat) : List Char := [natDigit (n / 10), natDigit n]

/-- Four-digit zero-padded rendering (for in-range `datetime` fields). -/
def pad4 (n : Nat) : List Char :=
  [natDigit (n / 1000), natDigit (n / 100), natDigit (n / 10), natDigit n]

/-- `datetime.now().strftime("%Y-%m-%d %H:%M:%S")` (app.py line 152). -/
def formatTimestamp (t : DateTime) : List Char :=
  pad4 t.year ++ '-' :: pad2 t.month ++ '-' :: pad2 t.day ++ ' ' ::
    pad2 t.hour ++ ':' :: pad2 t.minute ++ ':' :: pad2 t.second

/-- Checks the literal shape `YYYY-MM-DD HH:MM:SS`. -/
def tsShapeOk : List Char → Bool
  | [y1, y2, y3, y4, s1, mo1, mo2, s2, d1, d2, s3, hh1, hh2, s4, mi1, mi2, s5,
      se1, se2] =>
    y1.isDigit && y2.isDigit && y3.isDigit && y4.isDigit && s1 == '-' &&
      mo1.isDigit && mo2.isDigit && s2 == '-' && d1.isDigit && d2.isDigit &&
      s3 == ' ' && hh1.isDigit && hh2.isDigit && s4 == ':' && mi1.isDigit &&
      mi2.isDigit && s5 == ':' && se1.isDigit && se2.isDigit
  | _ => false

theorem natDigit_isDigit (n : Nat) : (natDigit n).isDigit = true := by
  unfold natDigit
  have h : n % 10 < 10 := Nat.mod_lt _ (by omega)
  generalize hr : n % 10 = r
  rw [hr] at h
  interval_cases r <;> decide

theorem tsShapeOk_formatTimestamp (t : DateTime) :
    tsShapeOk (formatTimestamp t) = true := by
  simp only [formatTimestamp, pad4, pad2, List.cons_append, List.nil_append]
  simp [tsShapeOk, natDigit_isDigit]

/-- `update_sheet` from app.py lines 148-161: the spreadsheet is the list of
its rows and `sheet.append_row` appends one six-field row. -/
def update_sheet (sheet : List (List (List Char))) (info : Info)
    (pdf_name document_link : List Char) (now : DateTime) :
    List (List (List Char)) :=
  sheet ++ [[pdf_name, document_link, pyStrip info.pps, pyStrip info.solutions,
    pyStrip info.to_solve, formatTimestamp now]]

/-- Counterexample for C2: the appended row does NOT carry the parsed fields
exactly — `update_sheet` strips them, and the parsed `pps` field carries a
trailing space, so the row differs from the one the claim describes. -/
theorem update_sheet_exact_match_cex :
    update_sheet []
        (parse_response ("Proposed Problem Statement\nReduce latency.").data)
        ("doc").data [] ⟨2026, 10, 12, 0, 0, 0⟩
      ≠ [[("doc").data, [],
          (parse_response ("Proposed Problem Statement\nReduce latency.").data).pps,
          (parse_response ("Proposed Problem Statement\nReduce latency.").data).solutions,
          (parse_response ("Proposed Problem Statement\nReduce latency.").data).to_solve,
          formatTimestamp ⟨2026, 10, 12, 0, 0, 0⟩]] := by decide

/-- C2 (amended): `update_sheet` appends exactly one row of six fields in the
order `[document_name, document_link, pps, solutions, to_solve, timestamp]`,
where the three middle fields are the WHITESPACE-STRIPPED parsed fields and the
timestamp has the literal shape `YYYY-MM-DD HH:MM:SS`. -/
theorem update_sheet_appends_stripped_row (sheet : List (List (List Char)))
    (info : Info) (pdf_name document_link : List Char) (now : DateTime) :
    update_sheet sheet info pdf_name document_link now
      = sheet ++ [[pdf_name, document_link, pyStrip info.pps,
          pyStrip info.solutions, pyStrip info.to_solve, formatTimestamp now]]
    ∧ tsShapeOk (formatTimestamp now) = true :=
  ⟨rfl, tsShapeOk_formatTimestamp now⟩

/-! ### Prompt construction of `extract_info_with_gemini` (app.py lines 76-109) -/

/-- The fixed instruction template preceding the document text in the prompt
built by `extract_info_with_gemini` (the f-string of app.py lines 82-104,
up to the interpolation of the document text). -/
def promptPre : List Char :=
  ("\nYou are an AI assistant helping a team building an AR/VR solution for performing surgeries.\n\nFrom the document below, extract and summarize:\n\n1. **Existing AR/VR Solutions in Surgery** – Any tools, systems, or research already using AR/VR for surgical training, planning, or execution.\n\n2. **Problems to be Solved** – Gaps, limitations, or open challenges in the field that need to be addressed.\n\n3. **Proposed Problem Statement** – Based on these gaps, suggest a clear and concise problem statement that an AR/VR-based surgical solution could address.\n\nFormat exactly like this:\n\nExisting AR/VR Solutions:\n- ...\n\nProblems to be Solved:\n- ...\n\nProposed Problem Statement:\n...\n\nTEXT:\n").data

/-- The prompt string built by `extract_info_with_gemini`: the fixed template,
then `text[:30000]`, then a final newline (app.py lines 82-106). -/
def gemini_prompt (text : List Char) : List Char :=
  promptPre ++ text.take 30000 ++ ['\n']

/-- The remainder of the text after the first occurrence of `pat`, if any. -/
def dropAfter (pat : List Char) : List Char → Option (List Char)
  | [] => if startsWithSeq pat [] then some [] else none
  | c :: t =>
    if startsWithSeq pat (c :: t) then some (List.drop pat.length (c :: t))
    else dropAfter pat t

/-- Do the given patterns all occur, in order, in the string? -/
def containsInOrder : List (List Char) → List Char → Bool
  | [], _ => true
  | p :: ps, s =>
    match dropAfter p s with
    | none => false
    | some r => containsInOrder ps r

set_option maxRecDepth 40000 in
/-- C3: the prompt embeds exactly `text[:30000]` — a prefix of the extracted
text of length at most 30000, taken from the start — and the fixed instruction
template names the three section headers in their literal order. -/
theorem gemini_prompt_truncates (text : List Char) :
    gemini_prompt text = promptPre ++ (text.take 30000 ++ ['\n'])
    ∧ (text.take 30000).length ≤ 30000
    ∧ text.take 30000 <+: text
    ∧ containsInOrder [hdrSolutions, hdrToSolve, hdrPps] promptPre = true := by
  refine ⟨rfl, ?_, ?_, ?_⟩
  · rw [List.length_take]
    exact Nat.min_le_left _ _
  · exact ⟨text.drop 30000, List.take_append_drop _ _⟩
  · decide

/-! ### Orchestration of `main` (app.py lines 168-260) -/

/-- The observable outcome of one run of the processing branch of `main`:
whether the summarization model was invoked, the spreadsheet contents after
the run, and whether the run aborted with an error message. -/
structure RunOutcome where
  geminiCalled : Bool
  sheetAfter : List (List (List Char))
  failed : Bool
deriving DecidableEq

/-- Python falsiness `not x` of an optional string: true for `None` and for
the empty string. -/
def pyFalsy : Option (List Char) → Bool
  | none => true
  | some t => t.isEmpty

/-- The processing branch of `main` (app.py lines 193-226).  External services
are abstracted as parameters: `pdfText` is the result of `read_pdf_text`
(`none` models its exception path), `gem` maps the extracted text to the model
response (`none` models a Gemini failure), and `sheetOk`/`appendOk` tell
whether sheet setup and the append call succeed.  The guards mirror the
source: `if not pdf_text`, `if not ai_response`, `if not sheet`. -/
def runMain (sheet0 : List (List (List Char))) (pdfText : Option (List Char))
    (gem : List Char → Option (List Char)) (sheetOk appendOk : Bool)
    (pdf_name document_link : List Char) (now : DateTime) : RunOutcome :=
  if pyFalsy pdfText then ⟨false, sheet0, true⟩
  else
    let text := pdfText.getD []
    let ai := gem text
    if pyFalsy ai then ⟨true, sheet0, true⟩
    else
      let info := parse_response (ai.getD [])
      if sheetOk then
        if appendOk then
          ⟨true, update_sheet sheet0 info pdf_name document_link now, false⟩
        else ⟨true, sheet0, true⟩
      else ⟨true, sheet0, true⟩

/-- C8: when text extraction fails (`read_pdf_text` returns `None`), the run
aborts at once: the summarization model is never called, no row is appended to
the spreadsheet, and the run reports failure. -/
theorem main_aborts_on_extraction_failure (sheet0 : List (List (List Char)))
    (gem : List Char → Option (List Char)) (sheetOk appendOk : Bool)
    (pdf_name document_link : List Char) (now : DateTime) :
    (runMain sheet0 none gem sheetOk appendOk pdf_name document_link now).geminiCalled
        = false
    ∧ (runMain sheet0 none gem sheetOk appendOk pdf_name document_link now).sheetAfter
        = sheet0
    ∧ (runMain sheet0 none gem sheetOk appendOk pdf_name document_link now).failed
        = true :=
  ⟨rfl, rfl, rfl⟩

/-- C9: when extraction succeeds but yields the empty string, `main`'s
truthiness test `if not pdf_text` treats the run as an extraction failure and
aborts before summarization: the model is never called and no row is appended. -/
theorem main_aborts_on_empty_extraction (sheet0 : List (List (List Char)))
    (gem : List Char → Option (List Char)) (sheetOk appendOk : Bool)
    (pdf_name document_link : List Char) (now : DateTime) :
    (runMain sheet0 (some []) gem sheetOk appendOk pdf_name document_link now).geminiCalled
        = false
    ∧ (runMain sheet0 (some []) gem sheetOk appendOk pdf_name document_link now).sheetAfter
        = sheet0
    ∧ (runMain sheet0 (some []) gem sheetOk appendOk pdf_name document_link now).failed
        = true :=
  ⟨rfl, rfl, rfl⟩
